import Mathlib

/-!
Verification of the execution-materialization engine of gunnery
(src/gunnery/task/models.py) against its natural-language specification.

Command text is embedded as `List Char` (Python strings are character
sequences).  `replaceAll` embeds Python's `str.replace(old, new)`:
left-to-right scan, non-overlapping matches, every occurrence replaced,
the inserted replacement text is not rescanned.
-/

set_option maxHeartbeats 1000000

/-- Recursion core for `replaceAll`, structurally recursive on a fuel
argument so that the kernel can evaluate it.  The fuel is initialized to
the text length and every step consumes at least one character while
spending one unit of fuel, so the zero-fuel arm is never reached from
`replaceAll`. -/
def replaceAllF (pat rep : List Char) : Nat → List Char → List Char
  | _, [] => []
  | 0, s => s
  | fuel + 1, c :: rest =>
    if pat.isPrefixOf (c :: rest) then
      rep ++ replaceAllF pat rep fuel (rest.drop (pat.length - 1))
    else
      c :: replaceAllF pat rep fuel rest

/-- Embedding of Python `cmd.replace(pat, rep)`: scan left to right; at a
position where `pat` is a prefix of the remaining text, emit `rep` and
continue after the matched occurrence (the inserted `rep` is not
rescanned); otherwise keep the character. -/
def replaceAll (pat rep : List Char) (s : List Char) : List Char :=
  replaceAllF pat rep s.length s

/-- Embedding of `parameter_format = '${%s}'` applied to a name
(source line 156): the placeholder token for parameter `n`. -/
def parameter_format (n : List Char) : List Char := '$' :: '{' :: (n ++ [ '}' ])

namespace gunnery

/-- Modelled from the spec: `core.models.Application` is not under src/;
the resolver reads only `execution.task.application.name`. -/
structure Application where
  name : List Char

/-- Modelled from the spec: `core.models.Server` is not under src/; per
spec section 3 a Server carries a set of ServerRole identifiers
(many-to-many).  Roles are embedded by their identifiers. -/
structure Server where
  id : Nat
  roles : List Nat

/-- Modelled from the spec: `core.models.Environment` is not under src/;
per spec section 3 an Environment is a named collection of Server
entities. -/
structure Environment where
  name : List Char
  servers : List Server

/-- Modelled from the spec: the auth user; the resolver reads only
`execution.user.email`. -/
structure User where
  email : List Char

/-- Embedding of `TaskCommand` (source lines 38-43): raw command text,
many-to-many role identifiers, integer rank. -/
structure TaskCommand where
  command : List Char
  roles : List Nat
  order : Int

/-- Embedding of `Task` (source lines 12-29, restricted to the fields the
materialization path reads): name, owning application, commands. -/
structure Task where
  name : List Char
  application : Application
  commands : List TaskCommand

/-- Stable sort step for the SQL `ORDER BY order` behind
`commands_ordered` (source line 29). -/
def insert_by_order (c : TaskCommand) : List TaskCommand → List TaskCommand
  | [] => [c]
  | d :: ds => if c.order < d.order then c :: d :: ds else d :: insert_by_order c ds

/-- Embedding of `Task.commands_ordered` (source lines 28-29). -/
def Task.commands_ordered (t : Task) : List TaskCommand :=
  t.commands.foldr insert_by_order []

/-- Embedding of `Execution` (source lines 46-65): status codes are the
source's integer choices; `parameters` embeds the related
`ExecutionParameter` rows (name, value) read by the resolver; `id` is the
primary key, absent until the first save. -/
structure Execution where
  id : Option Nat
  task : Task
  environment : Environment
  user : User
  time_created : Nat
  status : Nat
  parameters : List (List Char × List Char)

def Execution.PENDING : Nat := 3

def Execution.RUNNING : Nat := 0

def Execution.SUCCESS : Nat := 1

def Execution.FAILED : Nat := 2

/-- Embedding of `ParameterParser.global_parameter_values` (source lines
157-175): the five execution-derived globals, in the order of the source's
dict literal (Python dict iteration order is unspecified; the embedding
fixes the literal order).  `gun_time` is the creation time rendered as
decimal epoch seconds. -/
def global_parameter_values (e : Execution) : List (List Char × List Char) :=
  [("gun_application".toList, e.task.application.name),
   ("gun_environment".toList, e.environment.name),
   ("gun_task".toList, e.task.name),
   ("gun_user".toList, e.user.email),
   ("gun_time".toList, (toString e.time_created).toList)]

/-- The five global parameter names of `ParameterParser.global_parameters`
(source lines 157-163). -/
def global_names : List (List Char) :=
  ["gun_application".toList, "gun_environment".toList, "gun_task".toList,
   "gun_user".toList, "gun_time".toList]

/-- One substitution pass: sequential literal replacement of each listed
parameter's token by its value (the loop bodies of source lines 182-191). -/
def processList (ps : List (List Char × List Char)) (cmd : List Char) : List Char :=
  ps.foldl (fun c p => replaceAll (parameter_format p.1) p.2 c) cmd

/-- Embedding of `ParameterParser._process_global_parameters` (source
lines 182-185). -/
def _process_global_parameters (e : Execution) (cmd : List Char) : List Char :=
  processList (global_parameter_values e) cmd

/-- Embedding of `ParameterParser._process_parameters` (source lines
187-191): the user parameters are the execution's `ExecutionParameter`
rows. -/
def _process_parameters (e : Execution) (cmd : List Char) : List Char :=
  processList e.parameters cmd

/-- Embedding of `ParameterParser.process` (source lines 177-180): global
pass first, user pass second. -/
def process (e : Execution) (cmd : List Char) : List Char :=
  _process_parameters e (_process_global_parameters e cmd)

/-- Embedding of a materialized `ExecutionCommandServer` row (source lines
127-145): created with default status PENDING and a reference to its
server. -/
structure ExecutionCommandServer where
  status : Nat
  server : Nat

/-- Embedding of a materialized `ExecutionCommand` row (source lines
122-125) together with its related server units. -/
structure ExecutionCommand where
  execution : Nat
  command : List Char
  roles : List Nat
  servers : List ExecutionCommandServer

/-- The persistent store visible to `Execution.save`: execution rows
(id, status) and the materialized command rows. -/
structure DBState where
  nextId : Nat
  executions : List (Nat × Nat)
  executionCommands : List ExecutionCommand

/-- Embedding of `self.environment.servers.filter(roles__in=command.roles.all())`
(source line 90).  The query joins the server-role table, so it yields one
row per (server, matching role) pair: a server appears once per role it
shares with the command (Django's documented behaviour for a filter
spanning a many-to-many relation, used here without `.distinct()`). -/
def servers_filter_roles_in (servers : List Server) (roleIds : List Nat) :
    List Server :=
  servers.flatMap (fun s => (s.roles.filter (fun r => roleIds.contains r)).map (fun _ => s))

/-- Embedding of `Execution._create_execution_commands_servers` (source
lines 89-94): one PENDING unit per row of the join. -/
def _create_execution_commands_servers (e : Execution) (command : TaskCommand) :
    List ExecutionCommandServer :=
  (servers_filter_roles_in e.environment.servers command.roles).map
    (fun s => { status := Execution.PENDING, server := s.id })

/-- Embedding of `Execution._create_execution_commands` (source lines
80-87): `parsed_command = command.command` binds the raw text (the
parameter parser is not invoked on this path); the roles are copied and
the server units created. -/
def _create_execution_commands (e : Execution) (eid : Nat)
    (command : TaskCommand) : ExecutionCommand :=
  { execution := eid
    command := command.command
    roles := command.roles
    servers := _create_execution_commands_servers e command }

/-- Embedding of `Execution.save` (source lines 68-74): `is_new` is the
falsiness of the primary key before the base save; the base save inserts a
fresh row (assigning the next id) or updates the existing row; plan
materialization runs only on the `is_new` path, once per ordered task
command. -/
def Execution.save (e : Execution) (db : DBState) : Execution × DBState :=
  let is_new := e.id.isNone
  let e' := if e.id.isNone then { e with id := some db.nextId } else e
  let db' :=
    if e.id.isNone then
      { db with nextId := db.nextId + 1,
                executions := db.executions ++ [(db.nextId, e.status)] }
    else
      { db with executions :=
          db.executions.map (fun r => if r.1 = e.id.getD 0 then (r.1, e.status) else r) }
  if is_new then
    let newCmds := e'.task.commands_ordered.map
      (fun c => _create_execution_commands e' (e'.id.getD 0) c)
    (e', { db' with executionCommands := db'.executionCommands ++ newCmds })
  else
    (e', db')

/-- Embedding of `Execution.start` (source lines 76-78): enqueue one
`ExecutionTask` work unit carrying the execution id on the worker queue
and return; the body contains no status guard. -/
def Execution.start (e : Execution) (queue : List Nat) : List Nat :=
  queue ++ [e.id.getD 0]

/-- The foreign keys declared in src/gunnery/task/models.py as
(child model, related_name accessor, target model) triples; the accessor
is the attribute the relation adds to the target model.  In particular
`ExecutionLiveLog.execution` targets `Execution` with related_name
`live_logs` (source lines 150-153). -/
def foreign_keys : List (String × String × String) :=
  [("Task", "tasks", "Application"),
   ("TaskParameter", "parameters", "Task"),
   ("TaskCommand", "commands", "Task"),
   ("Execution", "executions", "Task"),
   ("Execution", "executions", "Environment"),
   ("Execution", "executions", "User"),
   ("ExecutionParameter", "parameters", "Execution"),
   ("ExecutionCommand", "commands", "Execution"),
   ("ExecutionCommandServer", "servers", "ExecutionCommand"),
   ("ExecutionCommandServer", "executioncommandserver_set", "Server"),
   ("ExecutionLiveLog", "live_logs", "Execution")]

/-- Related-set accessors available on instances of a model: the
related_names of the foreign keys that target it, each paired with the
child model it yields. -/
def related_sets (model : String) : List (String × String) :=
  (foreign_keys.filter (fun t => t.2.2 == model)).map (fun t => (t.2.1, t.1))

/-- The declared columns of the models relevant to the live-log read:
`ExecutionLiveLog` has `id`, `execution`, `event`, `data` (source lines
150-153) and no `output` column. -/
def model_fields (model : String) : List String :=
  if model == "ExecutionLiveLog" then ["id", "execution", "event", "data"]
  else if model == "ExecutionCommandServer" then
    ["id", "execution_command", "status", "time_start", "time_end", "time",
     "return_code", "server", "output"]
  else []

/-- Embedding of `ExecutionCommandServer.get_live_log_output` (source
lines 146-148): resolve the `live_logs` attribute on the unit against the
declared relations, then `values_list('output', flat=True)` against the
related model's columns, then join the selected payloads in row order. -/
def ExecutionCommandServer.get_live_log_output (_u : ExecutionCommandServer)
    (liveLogRows : List (List (String × List Char))) :
    Except String (List Char) :=
  match (related_sets ("ExecutionCommandServer")).find? (fun p => p.1 == "live_logs") with
  | none => Except.error ("AttributeError")
  | some rel =>
    if (model_fields rel.2).contains ("output") then
      Except.ok (liveLogRows.foldl (fun acc row =>
        acc ++ ((row.find? (fun f => f.1 == "output")).map Prod.snd).getD []) [])
    else
      Except.error ("FieldError")


/-- Concrete fixtures used by the witnesses and counterexamples below. -/
def app0 : Application := ⟨"app".toList⟩

def usr0 : User := ⟨"user@example.com".toList⟩

/-- An environment with a single server that carries two roles. -/
def env1 : Environment := ⟨"prod".toList, [⟨1, [1, 2]⟩]⟩

/-- A command whose role set shares both roles of the server of `env1`. -/
def cmd1 : TaskCommand := ⟨"deploy ${gun_task}".toList, [1, 2], 1⟩

def tsk1 : Task := ⟨"release".toList, app0, [cmd1]⟩

/-- A fresh (unsaved) execution of `tsk1` against `env1`. -/
def e1 : Execution := ⟨none, tsk1, env1, usr0, 7, Execution.PENDING, []⟩

def db0 : DBState := ⟨1, [], []⟩

/-- A persisted execution that is already RUNNING. -/
def e4 : Execution := ⟨some 7, tsk1, env1, usr0, 7, Execution.RUNNING, []⟩

/-- An environment whose only server matches no role of `cmd1`. -/
def env7 : Environment := ⟨"prod".toList, [⟨1, [3]⟩]⟩

def e7 : Execution := ⟨none, tsk1, env7, usr0, 7, Execution.PENDING, []⟩

/-- A persisted, finished execution. -/
def e8 : Execution := ⟨some 7, tsk1, env1, usr0, 7, Execution.SUCCESS, []⟩

/-- A task whose name (a global parameter value) contains a user-parameter
placeholder. -/
def tsk6 : Task := ⟨"run ${env}".toList, app0, []⟩

/-- An execution with the user parameter `env = prod`. -/
def e6 : Execution := ⟨some 1, tsk6, env1, usr0, 0, Execution.PENDING, [("env".toList, "prod".toList)]⟩

/-- An execution with a user parameter named like the global `gun_task`. -/
def e5 : Execution := ⟨none, tsk1, env1, usr0, 7, Execution.PENDING, [("gun_task".toList, "hack".toList)]⟩

end gunnery

theorem replaceAllF_fuel (pat rep : List Char) :
    ∀ f1 f2 s, s.length ≤ f1 → s.length ≤ f2 →
      replaceAllF pat rep f1 s = replaceAllF pat rep f2 s := by
  intro f1
  induction f1 with
  | zero =>
    intro f2 s h1 _
    have hs : s = [] := List.eq_nil_of_length_eq_zero (Nat.le_zero.mp h1)
    subst hs
    cases f2 <;> rfl
  | succ f1' ih =>
    intro f2 s h1 h2
    cases s with
    | nil => cases f2 <;> rfl
    | cons c rest =>
      cases f2 with
      | zero => exact absurd h2 (by simp)
      | succ f2' =>
        simp only [replaceAllF]
        have hr1 : rest.length ≤ f1' := by
          simpa using Nat.succ_le_succ_iff.mp h1
        have hr2 : rest.length ≤ f2' := by
          simpa using Nat.succ_le_succ_iff.mp h2
        by_cases hp : pat.isPrefixOf (c :: rest) = true
        · simp only [hp, if_true]
          have hd1 : (rest.drop (pat.length - 1)).length ≤ f1' :=
            le_trans (by simp) hr1
          have hd2 : (rest.drop (pat.length - 1)).length ≤ f2' :=
            le_trans (by simp) hr2
          rw [ih f2' _ hd1 hd2]
        · simp only [hp, Bool.false_eq_true, if_false]
          rw [ih f2' _ hr1 hr2]

theorem replaceAll_nil (pat rep : List Char) : replaceAll pat rep [] = [] := rfl

/-- The one-step unfolding of `replaceAll` on a nonempty text. -/
theorem replaceAll_eq_cons (pat rep : List Char) (c : Char) (rest : List Char) :
    replaceAll pat rep (c :: rest) =
      if pat.isPrefixOf (c :: rest) then
        rep ++ replaceAll pat rep (rest.drop (pat.length - 1))
      else
        c :: replaceAll pat rep rest := by
  show replaceAllF pat rep (c :: rest).length (c :: rest) = _
  simp only [List.length_cons, replaceAllF]
  by_cases hp : pat.isPrefixOf (c :: rest) = true
  · simp only [hp, if_true]
    rw [replaceAllF_fuel pat rep rest.length (rest.drop (pat.length - 1)).length
      (rest.drop (pat.length - 1)) (by simp) (le_refl _)]
    rfl
  · simp only [hp, Bool.false_eq_true, if_false]
    rfl

theorem isPrefixOf_append_self (l r : List Char) : l.isPrefixOf (l ++ r) = true := by
  induction l with
  | nil => simp [List.isPrefixOf]
  | cons c cs ih => simp [List.isPrefixOf, ih]

theorem isPrefixOf_cons_of_ne (a c : Char) (p r : List Char) (h : a ≠ c) :
    (a :: p).isPrefixOf (c :: r) = false := by
  simp [List.isPrefixOf]
  intro hac
  exact absurd hac h

/-- Scanning through dollar-free text with a pattern that starts with the
dollar character never matches: the scan passes the text verbatim. -/
theorem replaceAll_pass (pt rep s r : List Char) (hs : '$' ∉ s) :
    replaceAll ('$' :: pt) rep (s ++ r) = s ++ replaceAll ('$' :: pt) rep r := by
  induction s with
  | nil => rfl
  | cons c cs ih =>
    have hc : c ≠ '$' := by
      intro hEq
      exact hs (by simp [hEq])
    have hcs : '$' ∉ cs := fun hm => hs (List.mem_cons_of_mem _ hm)
    rw [List.cons_append, replaceAll_eq_cons]
    rw [isPrefixOf_cons_of_ne '$' c pt (cs ++ r) (fun hd => hc hd.symm)]
    simp only [Bool.false_eq_true, if_false, List.cons_append]
    rw [ih hcs]

/-- On wholly dollar-free text, replacement with a dollar-headed pattern is
the identity. -/
theorem replaceAll_id (pt rep s : List Char) (hs : '$' ∉ s) :
    replaceAll ('$' :: pt) rep s = s := by
  have h := replaceAll_pass pt rep s [] hs
  simpa [replaceAll_nil] using h


theorem rbrace_blocked_of_ne (g n y : List Char) (hg : '}' ∉ g) (hn : '}' ∉ n)
    (hne : g ≠ n) : (g ++ [ '}' ]).isPrefixOf ((n ++ [ '}' ]) ++ y) = false := by
  induction g generalizing n with
  | nil =>
    cases n with
    | nil => exact absurd rfl hne
    | cons b n' =>
      have hb : b ≠ '}' := by
        intro hEq
        exact hn (by simp [hEq])
      simp [List.isPrefixOf]
      intro hEq
      exact absurd hEq.symm hb
  | cons a g' ih =>
    have ha : a ≠ '}' := by
      intro hEq
      exact hg (by simp [hEq])
    cases n with
    | nil =>
      simp [List.isPrefixOf]
      intro hEq
      exact absurd hEq ha
    | cons b n' =>
      by_cases hab : a = b
      · have hg' : '}' ∉ g' := fun hm => hg (List.mem_cons_of_mem _ hm)
        have hn' : '}' ∉ n' := fun hm => hn (List.mem_cons_of_mem _ hm)
        have hne' : g' ≠ n' := by
          intro hEq
          exact hne (by rw [hab, hEq])
        simp [List.isPrefixOf, hab]
        have h := ih n' hg' hn' hne'
        simpa [List.append_assoc] using h
      · simp [List.isPrefixOf]
        intro hEq
        exact absurd hEq hab

/-- The token of parameter `g` never matches at the start of the token of a
different, well-formed parameter name `n`. -/
theorem tok_no_match (g n y : List Char) (hg : '}' ∉ g) (hn : '}' ∉ n)
    (hne : g ≠ n) :
    (parameter_format g).isPrefixOf (parameter_format n ++ y) = false := by
  have h := rbrace_blocked_of_ne g n y hg hn hne
  simpa [parameter_format, List.isPrefixOf, List.append_assoc] using h

/-- Replacement hits the leftmost occurrence of its own token in a text
shaped dollar-free-prefix, token, remainder: the token is replaced by `rep`
and the scan continues after it without rescanning `rep`. -/
theorem replaceAll_hit (nm rep x y : List Char) (hx : '$' ∉ x) :
    replaceAll (parameter_format nm) rep (x ++ parameter_format nm ++ y) =
      x ++ rep ++ replaceAll (parameter_format nm) rep y := by
  induction x with
  | nil =>
    show replaceAll (parameter_format nm) rep (parameter_format nm ++ y) = _
    have hshape : parameter_format nm ++ y =
        '$' :: (('{' :: (nm ++ [ '}' ])) ++ y) := by
      simp [parameter_format]
    rw [hshape, replaceAll_eq_cons]
    have hpre : (parameter_format nm).isPrefixOf
        ('$' :: (('{' :: (nm ++ [ '}' ])) ++ y)) = true := by
      simp [parameter_format, List.append_assoc]
    rw [hpre]
    simp only [if_true]
    have hdrop : (('{' :: (nm ++ [ '}' ])) ++ y).drop
        ((parameter_format nm).length - 1) = y := by
      have hlen : (parameter_format nm).length - 1 =
          ('{' :: (nm ++ [ '}' ])).length := by
        simp [parameter_format]
      rw [hlen, List.drop_left]
    rw [hdrop]
    simp
  | cons c cs ih =>
    have hc : c ≠ '$' := by
      intro hEq
      exact hx (by simp [hEq])
    have hcs : '$' ∉ cs := fun hm => hx (List.mem_cons_of_mem _ hm)
    have hstep : replaceAll (parameter_format nm) rep
        ((c :: cs) ++ parameter_format nm ++ y) =
        c :: replaceAll (parameter_format nm) rep (cs ++ parameter_format nm ++ y) := by
      rw [List.cons_append, List.cons_append, replaceAll_eq_cons]
      rw [show parameter_format nm = '$' :: ('{' :: (nm ++ [ '}' ])) from rfl]
      rw [isPrefixOf_cons_of_ne '$' c ('{' :: (nm ++ [ '}' ]))
        (cs ++ ('$' :: ('{' :: (nm ++ [ '}' ]))) ++ y) (fun hd => hc hd.symm)]
      simp
    rw [hstep, ih hcs]
    simp

/-- Replacement with the token of a different well-formed parameter passes a
text shaped dollar-free-prefix, token of `n`, remainder verbatim up to and
including the token of `n`. -/
theorem replaceAll_miss (g n rep x y : List Char) (hg : '}' ∉ g)
    (hnd : '$' ∉ n) (hnr : '}' ∉ n) (hne : g ≠ n) (hx : '$' ∉ x) :
    replaceAll (parameter_format g) rep (x ++ parameter_format n ++ y) =
      x ++ parameter_format n ++ replaceAll (parameter_format g) rep y := by
  induction x with
  | nil =>
    show replaceAll (parameter_format g) rep (parameter_format n ++ y) = _
    have hshape : parameter_format n ++ y =
        '$' :: (('{' :: (n ++ [ '}' ])) ++ y) := by
      simp [parameter_format]
    rw [hshape, replaceAll_eq_cons]
    rw [show parameter_format g = '$' :: ('{' :: (g ++ [ '}' ])) from rfl]
    have hmiss := tok_no_match g n y hg hnr hne
    rw [show ('$' :: ('{' :: (g ++ [ '}' ]))).isPrefixOf
        ('$' :: (('{' :: (n ++ [ '}' ])) ++ y)) = false by
      simpa [parameter_format, List.append_assoc] using hmiss]
    simp only [Bool.false_eq_true, if_false]
    have hsfree : '$' ∉ ('{' :: (n ++ [ '}' ])) := by
      intro hm
      rcases List.mem_cons.mp hm with h1 | h2
      · exact absurd h1.symm (by decide)
      · rcases List.mem_append.mp h2 with h3 | h4
        · exact hnd h3
        · simp at h4
    have hpass := replaceAll_pass ('{' :: (g ++ [ '}' ])) rep
      ('{' :: (n ++ [ '}' ])) y hsfree
    rw [hpass]
    simp [parameter_format, List.append_assoc]
  | cons c cs ih =>
    have hc : c ≠ '$' := by
      intro hEq
      exact hx (by simp [hEq])
    have hcs : '$' ∉ cs := fun hm => hx (List.mem_cons_of_mem _ hm)
    have hstep : replaceAll (parameter_format g) rep
        ((c :: cs) ++ parameter_format n ++ y) =
        c :: replaceAll (parameter_format g) rep (cs ++ parameter_format n ++ y) := by
      rw [List.cons_append, List.cons_append, replaceAll_eq_cons]
      rw [show parameter_format g = '$' :: ('{' :: (g ++ [ '}' ])) from rfl]
      rw [isPrefixOf_cons_of_ne '$' c ('{' :: (g ++ [ '}' ]))
        (cs ++ parameter_format n ++ y) (fun hd => hc hd.symm)]
      simp
    rw [hstep, ih hcs]
    simp

namespace gunnery

theorem servers_filter_roles_in_length (servers : List Server) (roleIds : List Nat) :
    (servers_filter_roles_in servers roleIds).length =
      (servers.map
        (fun s => (s.roles.filter (fun r => roleIds.contains r)).length)).sum := by
  induction servers with
  | nil => rfl
  | cons s ss ih =>
    simp only [servers_filter_roles_in, List.flatMap_cons, List.length_append,
      List.length_map, List.map_cons, List.sum_cons] at ih ⊢
    omega

theorem servers_filter_roles_in_nil (servers : List Server) (roleIds : List Nat)
    (h : ∀ s ∈ servers, ∀ r ∈ s.roles, ¬ roleIds.contains r) :
    servers_filter_roles_in servers roleIds = [] := by
  induction servers with
  | nil => rfl
  | cons s ss ih =>
    simp only [servers_filter_roles_in, List.flatMap_cons, List.append_eq_nil]
    constructor
    · have hf : s.roles.filter (fun r => roleIds.contains r) = [] := by
        apply List.filter_eq_nil_iff.mpr
        intro r hr
        simpa using h s (by simp) r hr
      rw [hf]
      rfl
    · exact ih (fun s' hs' => h s' (List.mem_cons_of_mem _ hs'))

/-- C1 counterexample: in `env1` a single server carries both roles of
`cmd1`, so the claimed unit count (one per matching server, no duplicate
per (command, server) pair) would be 1, yet materialization creates 2
units — the role join duplicates the server once per matching role. -/
theorem c1_counterexample :
    (_create_execution_commands_servers e1 cmd1).length = 2 ∧
    (e1.environment.servers.filter
      (fun s => s.roles.any (fun r => cmd1.roles.contains r))).length = 1 := by
  decide

/-- C1 as amended: the number of ExecutionCommandServer units created for
a command equals the number of (server, matching role) pairs — the sum
over the environment's servers of the size of the intersection of the
server's roles with the command's roles; a server matching through k
roles receives k duplicate units. -/
theorem c1_units_count (e : Execution) (command : TaskCommand) :
    (_create_execution_commands_servers e command).length =
      (e.environment.servers.map
        (fun s => (s.roles.filter (fun r => command.roles.contains r)).length)).sum := by
  simp only [_create_execution_commands_servers, List.length_map]
  exact servers_filter_roles_in_length e.environment.servers command.roles

/-- C2 counterexample: materializing fresh execution `e1` stores the raw
command text `deploy $\x7bgun_task\x7d`, while parameter substitution on
that text yields `deploy release`; the stored text is the raw one. -/
theorem c2_counterexample :
    ((Execution.save e1 db0).2.executionCommands.map (fun c => c.command)) =
      ["deploy ${gun_task}".toList] ∧
    process e1 ("deploy ${gun_task}".toList) = "deploy release".toList ∧
    "deploy ${gun_task}".toList ≠ "deploy release".toList := by
  refine ⟨by decide, by decide, by decide⟩

/-- C2 as amended: for every TaskCommand of the executed Task, the
ExecutionCommand materialized at Execution-creation time stores the raw
TaskCommand text; the Parameter Resolver is not invoked on the
materialization path in this module. -/
theorem c2_stores_raw_text (e : Execution) (db : DBState) (h : e.id = none) :
    ((Execution.save e db).2.executionCommands.map (fun c => c.command)) =
      db.executionCommands.map (fun c => c.command) ++
        e.task.commands_ordered.map (fun c => c.command) := by
  simp [Execution.save, h, _create_execution_commands, List.map_map, Function.comp]

theorem c2_stores_raw_text_witness :
    ((Execution.save e1 db0).2.executionCommands.map (fun c => c.command)) =
      db0.executionCommands.map (fun c => c.command) ++
        e1.task.commands_ordered.map (fun c => c.command) :=
  c2_stores_raw_text e1 db0 rfl

/-- C3: the live-log read operation fails for every unit: the
`live_logs` related set does not exist on ExecutionCommandServer (the
ExecutionLiveLog foreign key targets Execution), and ExecutionLiveLog has
no `output` column either, so `get_live_log_output` raises instead of
returning the unit's concatenated payloads. -/
theorem c3_live_log_read_fails (u : ExecutionCommandServer)
    (rows : List (List (String × List Char))) :
    u.get_live_log_output rows = Except.error ("AttributeError") ∧
    related_sets ("ExecutionCommandServer") = [] ∧
    ¬ ("output" ∈ model_fields ("ExecutionLiveLog")) :=
  ⟨rfl, by decide, by decide⟩

/-- C4 counterexample: execution `e4` is RUNNING (not PENDING), yet a
second call to start enqueues a second work unit: the queue holds two
dispatches for the same execution. -/
theorem c4_counterexample :
    Execution.start e4 (Execution.start e4 []) = [7, 7] ∧
    e4.status ≠ Execution.PENDING := by
  refine ⟨by decide, by decide⟩

/-- C4 as amended: `start` unconditionally enqueues exactly one more unit
of asynchronous work on every call, whatever the execution's status; the
at-most-one-dispatch invariant is the caller's obligation, not enforced
by `start`. -/
theorem c4_start_always_enqueues (e : Execution) (q : List Nat) (s : Nat) :
    (Execution.start e q).length = q.length + 1 ∧
    Execution.start { e with status := s } q = Execution.start e q := by
  refine ⟨by simp [Execution.start], rfl⟩

/-- C7: a TaskCommand whose role set matches no server still yields an
ExecutionCommand row — with an empty unit list — and materialization
completes normally. -/
theorem c7_empty_match_still_materializes (e : Execution) (db : DBState)
    (c : TaskCommand) (hid : e.id = none) (hcmds : e.task.commands = [c])
    (hnone : ∀ s ∈ e.environment.servers, ∀ r ∈ s.roles, ¬ c.roles.contains r) :
    (Execution.save e db).2.executionCommands =
      db.executionCommands ++
        [{ execution := db.nextId, command := c.command,
           roles := c.roles, servers := [] }] := by
  have hord : ({ e with id := some db.nextId } : Execution).task.commands_ordered = [c] := by
    simp [Task.commands_ordered, hcmds, insert_by_order]
  have hunits : _create_execution_commands_servers { e with id := some db.nextId } c = [] := by
    simp only [_create_execution_commands_servers]
    rw [servers_filter_roles_in_nil _ _ (by simpa using hnone)]
    rfl
  simp [Execution.save, hid, hord, _create_execution_commands, hunits]

theorem c7_witness :
    (Execution.save e7 db0).2.executionCommands =
      db0.executionCommands ++
        [{ execution := db0.nextId, command := cmd1.command,
           roles := cmd1.roles, servers := [] }] :=
  c7_empty_match_still_materializes e7 db0 cmd1 rfl rfl (by decide)

/-- C8: saving an already-persisted Execution runs only the base row
update; no ExecutionCommand (hence no ExecutionCommandServer) record is
added and the stored plan is untouched. -/
theorem c8_resave_creates_nothing (e : Execution) (db : DBState)
    (h : e.id.isSome = true) :
    (Execution.save e db).2.executionCommands = db.executionCommands := by
  have hnone : e.id.isNone = false := by
    cases hid : e.id with
    | none => rw [hid] at h; simp at h
    | some v => rfl
  simp [Execution.save, hnone]

theorem c8_witness :
    (Execution.save e8 db0).2.executionCommands = db0.executionCommands :=
  c8_resave_creates_nothing e8 db0 rfl

end gunnery

/-- Corollary of `replaceAll_id` phrased on parameter tokens. -/
theorem replaceAll_tok_id (nm rep s : List Char) (hs : '$' ∉ s) :
    replaceAll (parameter_format nm) rep s = s :=
  replaceAll_id ('{' :: (nm ++ [ '}' ])) rep s hs

/-- A single replacement on a text holding exactly one occurrence of its
own token replaces that occurrence and nothing else. -/
theorem replaceAll_hit_id (nm rep x y : List Char) (hx : '$' ∉ x) (hy : '$' ∉ y) :
    replaceAll (parameter_format nm) rep (x ++ parameter_format nm ++ y) =
      x ++ rep ++ y := by
  rw [replaceAll_hit nm rep x y hx, replaceAll_tok_id nm rep y hy]

/-- A replacement for a different parameter leaves a text holding one
foreign token unchanged. -/
theorem replaceAll_miss_id (g n rep x y : List Char) (hg : '}' ∉ g)
    (hnd : '$' ∉ n) (hnr : '}' ∉ n) (hne : g ≠ n) (hx : '$' ∉ x) (hy : '$' ∉ y) :
    replaceAll (parameter_format g) rep (x ++ parameter_format n ++ y) =
      x ++ parameter_format n ++ y := by
  rw [replaceAll_miss g n rep x y hg hnd hnr hne hx, replaceAll_tok_id g rep y hy]

/-- A single replacement on a text holding two occurrences of its own
token replaces both occurrences. -/
theorem replaceAll_hit2_id (nm rep x y z : List Char) (hx : '$' ∉ x)
    (hy : '$' ∉ y) (hz : '$' ∉ z) :
    replaceAll (parameter_format nm) rep
        (x ++ parameter_format nm ++ (y ++ parameter_format nm ++ z)) =
      x ++ rep ++ (y ++ rep ++ z) := by
  rw [replaceAll_hit nm rep x _ hx, replaceAll_hit nm rep y z hy,
    replaceAll_tok_id nm rep z hz]

/-- A replacement for a different parameter leaves a text holding two
foreign tokens unchanged. -/
theorem replaceAll_miss2_id (g n rep x y z : List Char) (hg : '}' ∉ g)
    (hnd : '$' ∉ n) (hnr : '}' ∉ n) (hne : g ≠ n) (hx : '$' ∉ x)
    (hy : '$' ∉ y) (hz : '$' ∉ z) :
    replaceAll (parameter_format g) rep
        (x ++ parameter_format n ++ (y ++ parameter_format n ++ z)) =
      x ++ parameter_format n ++ (y ++ parameter_format n ++ z) := by
  rw [replaceAll_miss g n rep x _ hg hnd hnr hne hx,
    replaceAll_miss g n rep y z hg hnd hnr hne hy,
    replaceAll_tok_id g rep z hz]

theorem not_mem_append3 {c : Char} {x w y : List Char} (hx : c ∉ x)
    (hw : c ∉ w) (hy : c ∉ y) : c ∉ x ++ w ++ y := by
  intro h
  rcases List.mem_append.mp h with h1 | h2
  · rcases List.mem_append.mp h1 with h3 | h4
    · exact hx h3
    · exact hw h4
  · exact hy h2

namespace gunnery

/-- A substitution pass is the identity on dollar-free text, whatever the
parameter list. -/
theorem processList_id (ps : List (List Char × List Char)) (cmd : List Char)
    (h : '$' ∉ cmd) : processList ps cmd = cmd := by
  induction ps with
  | nil => rfl
  | cons p ps ih =>
    show processList ps (replaceAll (parameter_format p.1) p.2 cmd) = cmd
    rw [replaceAll_tok_id p.1 p.2 cmd h]
    exact ih

/-- A substitution pass whose parameters all differ from `n` leaves a text
holding one token of `n` unchanged. -/
theorem processList_skip (ps : List (List Char × List Char)) (n x y : List Char)
    (hnd : '$' ∉ n) (hnr : '}' ∉ n) (hx : '$' ∉ x) (hy : '$' ∉ y)
    (hall : ∀ p ∈ ps, '}' ∉ p.1 ∧ p.1 ≠ n) :
    processList ps (x ++ parameter_format n ++ y) =
      x ++ parameter_format n ++ y := by
  induction ps with
  | nil => rfl
  | cons p ps ih =>
    have hp := hall p (by simp)
    show processList ps
        (replaceAll (parameter_format p.1) p.2 (x ++ parameter_format n ++ y)) = _
    rw [replaceAll_miss_id p.1 n p.2 x y hp.1 hnd hnr hp.2 hx hy]
    exact ih (fun q hq => hall q (List.mem_cons_of_mem _ hq))

/-- A substitution pass whose parameters all differ from `n` leaves a text
holding two tokens of `n` unchanged. -/
theorem processList_skip2 (ps : List (List Char × List Char)) (n x y z : List Char)
    (hnd : '$' ∉ n) (hnr : '}' ∉ n) (hx : '$' ∉ x) (hy : '$' ∉ y) (hz : '$' ∉ z)
    (hall : ∀ p ∈ ps, '}' ∉ p.1 ∧ p.1 ≠ n) :
    processList ps (x ++ parameter_format n ++ (y ++ parameter_format n ++ z)) =
      x ++ parameter_format n ++ (y ++ parameter_format n ++ z) := by
  induction ps with
  | nil => rfl
  | cons p ps ih =>
    have hp := hall p (by simp)
    show processList ps (replaceAll (parameter_format p.1) p.2
        (x ++ parameter_format n ++ (y ++ parameter_format n ++ z))) = _
    rw [replaceAll_miss2_id p.1 n p.2 x y z hp.1 hnd hnr hp.2 hx hy hz]
    exact ih (fun q hq => hall q (List.mem_cons_of_mem _ hq))

/-- Every global parameter name is brace-free and differs from any name
outside `global_names`. -/
theorem global_values_avoid (e : Execution) (n : List Char)
    (hng : n ∉ global_names) :
    ∀ p ∈ global_parameter_values e, '}' ∉ p.1 ∧ p.1 ≠ n := by
  intro p hp
  simp only [global_parameter_values, List.mem_cons, List.not_mem_nil,
    or_false] at hp
  rcases hp with h | h | h | h | h <;> subst h <;> dsimp only <;>
    exact ⟨by decide, fun hEq => hng (by rw [← hEq]; decide)⟩

/-- The global pass on a text holding exactly one `gun_task` token
replaces it with the task name and changes nothing else. -/
theorem global_pass_gun_task (e : Execution) (x y : List Char)
    (hx : '$' ∉ x) (hy : '$' ∉ y) (htn : '$' ∉ e.task.name) :
    _process_global_parameters e
        (x ++ parameter_format ("gun_task".toList) ++ y) =
      x ++ e.task.name ++ y := by
  have hfree : '$' ∉ x ++ e.task.name ++ y := not_mem_append3 hx htn hy
  simp only [_process_global_parameters, global_parameter_values, processList,
    List.foldl_cons, List.foldl_nil]
  rw [replaceAll_miss_id ("gun_application".toList) ("gun_task".toList) _ x y
    (by decide) (by decide) (by decide) (by decide) hx hy]
  rw [replaceAll_miss_id ("gun_environment".toList) ("gun_task".toList) _ x y
    (by decide) (by decide) (by decide) (by decide) hx hy]
  rw [replaceAll_hit_id ("gun_task".toList) e.task.name x y hx hy]
  rw [replaceAll_tok_id ("gun_user".toList) e.user.email _ hfree]
  rw [replaceAll_tok_id ("gun_time".toList) _ _ hfree]

end gunnery

namespace gunnery

/-- C9: a placeholder whose name matches neither a global nor a user
parameter of the execution is left verbatim by resolution, which returns
normally (the embedding is a total function). -/
theorem c9_unknown_placeholder_verbatim (e : Execution) (x y n : List Char)
    (hnd : '$' ∉ n) (hnr : '}' ∉ n) (hng : n ∉ global_names)
    (hx : '$' ∉ x) (hy : '$' ∉ y)
    (hus : ∀ p ∈ e.parameters, '}' ∉ p.1 ∧ p.1 ≠ n) :
    process e (x ++ parameter_format n ++ y) = x ++ parameter_format n ++ y := by
  show _process_parameters e (_process_global_parameters e _) = _
  rw [show _process_global_parameters e (x ++ parameter_format n ++ y) =
      x ++ parameter_format n ++ y from
    processList_skip _ n x y hnd hnr hx hy (global_values_avoid e n hng)]
  exact processList_skip e.parameters n x y hnd hnr hx hy hus

theorem c9_witness :
    process e6 ("ls ".toList ++ parameter_format ("foo".toList) ++ []) =
      "ls ".toList ++ parameter_format ("foo".toList) ++ [] :=
  c9_unknown_placeholder_verbatim e6 ("ls ".toList) [] ("foo".toList)
    (by decide) (by decide) (by decide) (by decide) (by decide) (by decide)

/-- C5: globals are substituted before user parameters.  A user parameter
named `gun_task` is inert — the result is the same with or without it and
carries the global task name, never the user value — and a user value
consisting of a literal `gun_task` token is inserted untouched, since the
global pass has already run. -/
theorem c5_globals_before_user (idv : Option Nat) (t : Task) (env : Environment)
    (u : User) (tc st : Nat) (us1 us2 : List (List Char × List Char))
    (v x y : List Char) (hx : '$' ∉ x) (hy : '$' ∉ y) (htn : '$' ∉ t.name) :
    process ⟨idv, t, env, u, tc, st, us1 ++ ("gun_task".toList, v) :: us2⟩
        (x ++ parameter_format ("gun_task".toList) ++ y) = x ++ t.name ++ y ∧
    process ⟨idv, t, env, u, tc, st, us1 ++ us2⟩
        (x ++ parameter_format ("gun_task".toList) ++ y) = x ++ t.name ++ y ∧
    ∀ p : List Char, '$' ∉ p → '}' ∉ p → p ∉ global_names →
      process ⟨idv, t, env, u, tc, st, [(p, parameter_format ("gun_task".toList))]⟩
          (x ++ parameter_format p ++ y) =
        x ++ parameter_format ("gun_task".toList) ++ y := by
  have hfree : '$' ∉ x ++ t.name ++ y := not_mem_append3 hx htn hy
  refine ⟨?_, ?_, ?_⟩
  · show _process_parameters _ (_process_global_parameters _ _) = _
    rw [global_pass_gun_task ⟨idv, t, env, u, tc, st, _⟩ x y hx hy htn]
    exact processList_id _ _ hfree
  · show _process_parameters _ (_process_global_parameters _ _) = _
    rw [global_pass_gun_task ⟨idv, t, env, u, tc, st, _⟩ x y hx hy htn]
    exact processList_id _ _ hfree
  · intro p hpd hpr hpg
    show _process_parameters _ (_process_global_parameters _ _) = _
    rw [show _process_global_parameters
        ⟨idv, t, env, u, tc, st, [(p, parameter_format ("gun_task".toList))]⟩
        (x ++ parameter_format p ++ y) = x ++ parameter_format p ++ y from
      processList_skip _ p x y hpd hpr hx hy (global_values_avoid _ p hpg)]
    show processList []
        (replaceAll (parameter_format p) (parameter_format ("gun_task".toList))
          (x ++ parameter_format p ++ y)) = _
    rw [replaceAll_hit_id p _ x y hx hy]
    rfl

theorem c5_witness :
    process e5 ("deploy ${gun_task}".toList) = "deploy release".toList ∧
    process ⟨none, tsk1, env1, usr0, 7, Execution.PENDING, []⟩
        ("deploy ${gun_task}".toList) = "deploy release".toList ∧
    process ⟨none, tsk1, env1, usr0, 7, Execution.PENDING,
        [("env".toList, "${gun_task}".toList)]⟩
        ("deploy ${env}".toList) = "deploy ${gun_task}".toList := by
  have h := c5_globals_before_user none tsk1 env1 usr0 7 Execution.PENDING []
    [] ("hack".toList) ("deploy ".toList) [] (by decide) (by decide) (by decide)
  exact ⟨h.1, h.2.1, h.2.2 ("env".toList) (by decide) (by decide) (by decide)⟩

/-- C6 counterexample: the global `gun_task` value of `e6` is the task
name `run $\x7benv\x7d`, which contains the user parameter token `env`;
after resolution the output is `run prod` — the token inside the
substituted global value was expanded by the user pass, so a parameter
value containing another placeholder token is not always left
unexpanded. -/
theorem c6_counterexample :
    process e6 ("${gun_task}".toList) = "run prod".toList ∧
    "run prod".toList ≠ "run ${env}".toList := by
  refine ⟨by decide, by decide⟩

/-- C6 as amended: each pass is a single literal sweep that does not
rescan the text it inserts, but a value inserted by an earlier replacement
is subject to every later replacement: a global value containing a
user-parameter placeholder is expanded by the subsequent user pass. -/
theorem c6_value_tokens_expand_in_later_passes (idv : Option Nat)
    (app : Application) (cmds : List TaskCommand) (env : Environment) (u : User)
    (tc st : Nat) (p v a b x y : List Char)
    (hpd : '$' ∉ p) (hpr : '}' ∉ p) (hpg : p ∉ global_names)
    (ha : '$' ∉ a) (hb : '$' ∉ b) (hx : '$' ∉ x) (hy : '$' ∉ y) :
    process ⟨idv, ⟨a ++ parameter_format p ++ b, app, cmds⟩, env, u, tc, st, [(p, v)]⟩
        (x ++ parameter_format ("gun_task".toList) ++ y) =
      x ++ a ++ v ++ b ++ y := by
  have hne_user : ("gun_user".toList : List Char) ≠ p :=
    fun hEq => hpg (by rw [← hEq]; decide)
  have hne_time : ("gun_time".toList : List Char) ≠ p :=
    fun hEq => hpg (by rw [← hEq]; decide)
  have hxa : '$' ∉ x ++ a := by
    intro h
    rcases List.mem_append.mp h with h1 | h2
    · exact hx h1
    · exact ha h2
  have hby : '$' ∉ b ++ y := by
    intro h
    rcases List.mem_append.mp h with h1 | h2
    · exact hb h1
    · exact hy h2
  show _process_parameters _ (_process_global_parameters _ _) = _
  simp only [_process_global_parameters, global_parameter_values, processList,
    List.foldl_cons, List.foldl_nil]
  rw [replaceAll_miss_id ("gun_application".toList) ("gun_task".toList) _ x y
    (by decide) (by decide) (by decide) (by decide) hx hy]
  rw [replaceAll_miss_id ("gun_environment".toList) ("gun_task".toList) _ x y
    (by decide) (by decide) (by decide) (by decide) hx hy]
  rw [replaceAll_hit_id ("gun_task".toList) _ x y hx hy]
  rw [show x ++ (a ++ parameter_format p ++ b) ++ y =
      (x ++ a) ++ parameter_format p ++ (b ++ y) from by
    simp [List.append_assoc]]
  rw [replaceAll_miss_id ("gun_user".toList) p _ (x ++ a) (b ++ y)
    (by decide) hpd hpr hne_user hxa hby]
  rw [replaceAll_miss_id ("gun_time".toList) p _ (x ++ a) (b ++ y)
    (by decide) hpd hpr hne_time hxa hby]
  show processList []
      (replaceAll (parameter_format p) v
        ((x ++ a) ++ parameter_format p ++ (b ++ y))) = _
  rw [replaceAll_hit_id p v (x ++ a) (b ++ y) hxa hby]
  show (x ++ a) ++ v ++ (b ++ y) = x ++ a ++ v ++ b ++ y
  simp [List.append_assoc]

theorem c6_witness :
    process e6 ("${gun_task}".toList) = "run prod".toList := by
  have h := c6_value_tokens_expand_in_later_passes (some 1) app0 [] env1 usr0 0
    Execution.PENDING ("env".toList) ("prod".toList) ("run ".toList) [] [] []
    (by decide) (by decide) (by decide) (by decide) (by decide) (by decide)
    (by decide)
  exact h

/-- C10: a replacement pass substitutes every occurrence of a parameter's
token, not only the first — shown for a user parameter occurring twice and
for the global `gun_task` occurring twice. -/
theorem c10_replaces_all_occurrences :
    (∀ (idv : Option Nat) (t : Task) (env : Environment) (u : User) (tc st : Nat)
        (p v x y z : List Char), '$' ∉ p → '}' ∉ p → p ∉ global_names →
        '$' ∉ x → '$' ∉ y → '$' ∉ z →
        process ⟨idv, t, env, u, tc, st, [(p, v)]⟩
            (x ++ parameter_format p ++ (y ++ parameter_format p ++ z)) =
          x ++ v ++ (y ++ v ++ z)) ∧
    (∀ (idv : Option Nat) (t : Task) (env : Environment) (u : User) (tc st : Nat)
        (x y z : List Char), '$' ∉ t.name → '$' ∉ x → '$' ∉ y → '$' ∉ z →
        process ⟨idv, t, env, u, tc, st, []⟩
            (x ++ parameter_format ("gun_task".toList) ++
              (y ++ parameter_format ("gun_task".toList) ++ z)) =
          x ++ t.name ++ (y ++ t.name ++ z)) := by
  constructor
  · intro idv t env u tc st p v x y z hpd hpr hpg hx hy hz
    show _process_parameters _ (_process_global_parameters _ _) = _
    rw [show _process_global_parameters ⟨idv, t, env, u, tc, st, [(p, v)]⟩
        (x ++ parameter_format p ++ (y ++ parameter_format p ++ z)) =
        x ++ parameter_format p ++ (y ++ parameter_format p ++ z) from
      processList_skip2 _ p x y z hpd hpr hx hy hz (global_values_avoid _ p hpg)]
    show processList []
        (replaceAll (parameter_format p) v
          (x ++ parameter_format p ++ (y ++ parameter_format p ++ z))) = _
    rw [replaceAll_hit2_id p v x y z hx hy hz]
    rfl
  · intro idv t env u tc st x y z htn hx hy hz
    have hfree : '$' ∉ x ++ t.name ++ (y ++ t.name ++ z) :=
      not_mem_append3 hx htn (not_mem_append3 hy htn hz)
    show _process_parameters _ (_process_global_parameters _ _) = _
    simp only [_process_global_parameters, global_parameter_values, processList,
      List.foldl_cons, List.foldl_nil]
    rw [replaceAll_miss2_id ("gun_application".toList) ("gun_task".toList) _ x y z
      (by decide) (by decide) (by decide) (by decide) hx hy hz]
    rw [replaceAll_miss2_id ("gun_environment".toList) ("gun_task".toList) _ x y z
      (by decide) (by decide) (by decide) (by decide) hx hy hz]
    rw [replaceAll_hit2_id ("gun_task".toList) _ x y z hx hy hz]
    rw [replaceAll_tok_id ("gun_user".toList) _ _ hfree]
    rw [replaceAll_tok_id ("gun_time".toList) _ _ hfree]
    rfl

theorem c10_witness :
    process ⟨none, tsk1, env1, usr0, 7, Execution.PENDING,
        [("env".toList, "prod".toList)]⟩ ("cp ${env} ${env}".toList) =
      "cp prod prod".toList ∧
    process ⟨none, tsk1, env1, usr0, 7, Execution.PENDING, []⟩
        ("cp ${gun_task} ${gun_task}".toList) = "cp release release".toList := by
  have h := c10_replaces_all_occurrences
  constructor
  · exact h.1 none tsk1 env1 usr0 7 Execution.PENDING ("env".toList)
      ("prod".toList) ("cp ".toList) (" ".toList) [] (by decide) (by decide)
      (by decide) (by decide) (by decide) (by decide)
  · exact h.2 none tsk1 env1 usr0 7 Execution.PENDING ("cp ".toList)
      (" ".toList) [] (by decide) (by decide) (by decide) (by decide)

end gunnery
